import Mathlib

/-!
Verification of the Sprint Coordinator document/tool layer against its design
specification.

The development shallowly embeds the Python source of the repository:

* `src/app/copilot/tools/canvas_tools.py` — canvas and customer-segment tools
* `src/app/copilot/tools/sprint_tools.py` — sprint-item tools
* `src/backend/app/fastapi_app.py` — session initialization and the
  websocket streaming relay

JSON values are modelled by the inductive type `Json`; Python dictionaries
(which preserve insertion order and have unique keys) are modelled as
association lists, and JSON documents read from and written to disk are passed
as explicit state.  Fallible operations return explicit result types; a Python
exception that escapes to a `except Exception` handler is modelled by a
distinguished `exn`-style constructor (the handlers log and return an error
payload without saving, so the document is unchanged on that path).
-/

/-- A JSON value, as produced by Python `json.load`. -/
inductive Json where
  | null
  | bool (b : Bool)
  | num (n : Int)
  | str (s : String)
  | arr (elems : List Json)
  | obj (fields : List (String × Json))

/-- Association-list lookup, modelling `d[k]` / `d.get(k)` on a Python dict
(first binding wins; parsed JSON objects have unique keys). -/
def lookupKey {α : Type} : List (String × α) → String → Option α
  | [], _ => none
  | (k', v) :: rest, k => if k' = k then some v else lookupKey rest k

/-- Association-list assignment, modelling `d[k] = v` on a Python dict:
replace the binding in place if the key is present, otherwise append. -/
def setKey {α : Type} : List (String × α) → String → α → List (String × α)
  | [], k, v => [(k, v)]
  | (k', v') :: rest, k, v =>
      if k' = k then (k, v) :: rest else (k', v') :: setKey rest k v

/-- Modelling Python `base.update(patch)` on dicts: assign every binding of
`patch` into `base`, in order. -/
def dictUpdate (base patch : List (String × Json)) : List (String × Json) :=
  patch.foldl (fun acc p => setKey acc p.1 p.2) base

/-- Left-biased choice on `Option` (`a` wins when present). -/
def firstSome {α : Type} : Option α → Option α → Option α
  | some v, _ => some v
  | none, b => b

/-- Python iteration `for x in v`: lists iterate their elements, dicts iterate
their keys, strings iterate their one-character substrings; iterating any
other JSON value raises `TypeError` (`none`). -/
def toIter : Json → Option (List Json)
  | .arr xs => some xs
  | .obj kvs => some (kvs.map (fun p => Json.str p.1))
  | .str s => some (s.toList.map (fun c => Json.str (String.mk [c])))
  | _ => none

/-- The keys of a JSON-object patch are distinct, as is guaranteed for any
object produced by parsing well-formed JSON text (Python dict keys are
unique).  Non-object values carry no key constraint. -/
def wfPatch : Json → Prop
  | .obj fields => (fields.map Prod.fst).Nodup
  | _ => True

-- ### Document loading (`_load_json_file`, `_load_sprints_data`)
/-- The observable state of a backing JSON file: absent, present but
unparseable, or present with a parsed JSON value. -/
inductive FileContent where
  | missing
  | invalid
  | stored (v : Json)

/-- `canvas_tools._load_json_file`: a missing file, undecodable JSON, or any
other read failure yields the empty object `{}`. -/
def load_json_file : FileContent → Json
  | .missing => .obj []
  | .invalid => .obj []
  | .stored v => v

/-- `sprint_tools._load_sprints_data`: a missing file, undecodable JSON, or
any other read failure yields `{"sprints": [], "sprint_analysis": {}}`. -/
def load_sprints_data : FileContent → Json
  | .missing => .obj [("sprints", .arr []), ("sprint_analysis", .obj [])]
  | .invalid => .obj [("sprints", .arr []), ("sprint_analysis", .obj [])]
  | .stored v => v

-- ### Canvas tools (`update_business_model_canvas`, `update_value_proposition_canvas`)
/-- The `if section not in data: data[section] = {}` step of both canvas
update tools. -/
def ensureSection (kvs : List (String × Json)) (sect : String) : List (String × Json) :=
  match lookupKey kvs sect with
  | none => setKey kvs sect (.obj [])
  | some _ => kvs

/-- The value assigned to `data[section]` by the three-way shape branch of
the canvas update tools: dict-on-dict key merge
(`data[section].update(updates_dict)` mutates in place, which equals
assigning the merged dict), list-on-list replacement, and verbatim
overwrite in every other shape combination. -/
def mergedSectionValue (kvs1 : List (String × Json)) (sect : String) (patch : Json) : Json :=
  match lookupKey kvs1 sect, patch with
  | some (Json.obj base), Json.obj p => .obj (dictUpdate base p)
  | some (Json.arr _), Json.arr p => .arr p
  | _, _ => patch

/-- The section-merge step shared by both canvas update tools: ensure the
section key exists (creating it as `{}` if absent), then store the merged
value at the section key. -/
def applySectionUpdate (kvs : List (String × Json)) (sect : String) (patch : Json) :
    List (String × Json) :=
  setKey (ensureSection kvs sect) sect (mergedSectionValue (ensureSection kvs sect) sect patch)

/-- Success payload of `update_business_model_canvas` (the quote characters
that the source puts around the section name inside the message are omitted;
no claim concerns the exact message text). -/
def bmcPayload (sect : String) (patch : Json) : Json :=
  .obj [("success", .bool true),
        ("message", .str ("Business Model Canvas section " ++ sect ++ " updated successfully")),
        ("section", .str sect),
        ("updates", patch)]

/-- Success payload of `update_value_proposition_canvas`. -/
def vpcPayload (sect : String) (patch : Json) : Json :=
  .obj [("success", .bool true),
        ("message", .str ("Value Proposition Canvas section " ++ sect ++ " updated successfully")),
        ("section", .str sect),
        ("updates", patch)]

/-- Result of a canvas update: either the success payload together with the
document that was saved, or the escaping-exception path (`data` not a dict,
so `section not in data` / `data[section]` raises), on which nothing is
saved. The JSON-parse failure of the `updates` argument happens before the
document is touched and is outside this embedding, which takes the already
parsed patch. -/
inductive CanvasResult where
  | exn
  | ok (payload : Json) (newData : Json)

/-- `canvas_tools.update_business_model_canvas`, with the document state
passed explicitly (`_load_json_file`/`_save_json_file` become state passing;
the save is assumed to succeed). -/
def update_business_model_canvas (data : Json) (sect : String) (patch : Json) :
    CanvasResult :=
  match data with
  | .obj kvs => .ok (bmcPayload sect patch) (.obj (applySectionUpdate kvs sect patch))
  | _ => .exn

/-- `canvas_tools.update_value_proposition_canvas`; identical merge logic,
different document and message. -/
def update_value_proposition_canvas (data : Json) (sect : String) (patch : Json) :
    CanvasResult :=
  match data with
  | .obj kvs => .ok (vpcPayload sect patch) (.obj (applySectionUpdate kvs sect patch))
  | _ => .exn

/-- The document on disk after a canvas update: the new document on success,
the previous one otherwise. -/
def canvasSaved (data : Json) (r : CanvasResult) : Json :=
  match r with
  | .ok _ d => d
  | .exn => data

/-- Shape mismatch in the sense of the spec merge rules: the existing value
and the patch are not both keyed mappings and not both ordered sequences
(this includes the key being absent). -/
def mismatchShape : Option Json → Json → Prop
  | some (.obj _), .obj _ => False
  | some (.arr _), .arr _ => False
  | _, _ => True

-- ### Sprint tools (`update_sprint_item_status`, `get_sprint_item`)
/-- `d.get(key) == idv` for a Python dict `d` and string `idv`: true exactly
when the key is present with that string value (a missing key compares as
`None`, a non-string value is never equal to a string). -/
def keyMatches (f : List (String × Json)) (key idv : String) : Bool :=
  match lookupKey f key with
  | some (.str s) => decide (s = idv)
  | _ => false

/-- The status set accepted by `update_sprint_item_status`
(`valid_statuses` in the source). -/
def valid_statuses : List String := ["pending", "in_progress", "completed"]

/-- The in-place mutation of a matched sprint item:
`item["status"] = status` and, only when `notes` is non-empty (Python string
truthiness), `item["notes"] = notes`. -/
def setItemFields (f : List (String × Json)) (status notes : String) :
    List (String × Json) :=
  let f1 := setKey f "status" (.str status)
  if notes ≠ "" then setKey f1 "notes" (.str notes) else f1

/-- The inner `for item in sprint.get("items", [])` loop: stop at the first
item whose `item_id` equals the target and rebuild the list with that item
mutated; `.ok none` when no item matches; `.error` when some scanned element
is not a dict (`item.get` raises `AttributeError`, caught by the outer
handler). -/
def updateItems (item_id status notes : String) : List Json → Except Unit (Option (List Json))
  | [] => .ok none
  | item :: rest =>
    match item with
    | .obj f =>
      if keyMatches f "item_id" item_id then
        .ok (some (.obj (setItemFields f status notes) :: rest))
      else
        match updateItems item_id status notes rest with
        | .ok (some rest') => .ok (some (item :: rest'))
        | .ok none => .ok none
        | .error e => .error e
    | _ => .error ()

/-- The outer `for sprint in data.get("sprints", [])` loop of
`update_sprint_item_status` (the `updated` flag plus the two `break`
statements make it stop at the first matching item). -/
def updateSprints (item_id status notes : String) : List Json → Except Unit (Option (List Json))
  | [] => .ok none
  | sp :: rest =>
    match sp with
    | .obj sf =>
      match toIter ((lookupKey sf "items").getD (.arr [])) with
      | none => .error ()
      | some its =>
        match updateItems item_id status notes its with
        | .error e => .error e
        | .ok (some its') => .ok (some (.obj (setKey sf "items" (.arr its')) :: rest))
        | .ok none =>
          match updateSprints item_id status notes rest with
          | .ok (some rest') => .ok (some (sp :: rest'))
          | .ok none => .ok none
          | .error e => .error e
    | _ => .error ()

/-- Result of `update_sprint_item_status`: the validation-error payload, the
not-found error payload, the escaping-exception path, or success carrying
the document that was saved. -/
inductive UpdResult where
  | invalidStatus (status : String)
  | notFound (item_id : String)
  | exn
  | ok (newData : Json)

/-- `sprint_tools.update_sprint_item_status`, document state explicit.  The
status is validated against `valid_statuses` before the document is touched;
only on a successful in-memory update is the document saved. -/
def update_sprint_item_status (data : Json) (item_id status notes : String) : UpdResult :=
  if status ∈ valid_statuses then
    match data with
    | .obj kvs =>
      match toIter ((lookupKey kvs "sprints").getD (.arr [])) with
      | none => .exn
      | some sprints =>
        match updateSprints item_id status notes sprints with
        | .error _ => .exn
        | .ok none => .notFound item_id
        | .ok (some sprints') => .ok (.obj (setKey kvs "sprints" (.arr sprints')))
    | _ => .exn
  else .invalidStatus status

/-- The sprints document on disk after `update_sprint_item_status`: replaced
on success (`_save_sprints_data`), untouched on every error path. -/
def sprintsSaved (data : Json) (r : UpdResult) : Json :=
  match r with
  | .ok d => d
  | _ => data

/-- The inner loop of `get_sprint_item`: return the first item whose
`item_id` matches. -/
def findItem (item_id : String) : List Json → Except Unit (Option Json)
  | [] => .ok none
  | item :: rest =>
    match item with
    | .obj f =>
      if keyMatches f "item_id" item_id then .ok (some (.obj f))
      else findItem item_id rest
    | _ => .error ()

/-- The outer loop of `get_sprint_item`. -/
def findItemSprints (item_id : String) : List Json → Except Unit (Option Json)
  | [] => .ok none
  | sp :: rest =>
    match sp with
    | .obj sf =>
      match toIter ((lookupKey sf "items").getD (.arr [])) with
      | none => .error ()
      | some its =>
        match findItem item_id its with
        | .error e => .error e
        | .ok (some it) => .ok (some it)
        | .ok none => findItemSprints item_id rest
    | _ => .error ()

/-- `sprint_tools.get_sprint_item`: search all sprints for the item,
returning the item found, `none` (the not-found payload), or the
escaping-exception path. -/
def get_sprint_item (data : Json) (item_id : String) : Except Unit (Option Json) :=
  match data with
  | .obj kvs =>
    match toIter ((lookupKey kvs "sprints").getD (.arr [])) with
    | none => .error ()
    | some sprints => findItemSprints item_id sprints
  | _ => .error ()

-- ### Customer-segment tool (`update_customer_segments`)
/-- The mutation applied to the matched segment: merge when the patch is a
dict (`segments[i].update(updates_dict)`; the `isinstance(segment, dict)`
conjunct is always true at this point because `segment.get` has already
succeeded), otherwise replace the whole element
(`segments[i] = updates_dict`). -/
def segApply (f : List (String × Json)) (patch : Json) : Json :=
  match patch with
  | .obj p => .obj (dictUpdate f p)
  | _ => patch

/-- The `for i, segment in enumerate(segments)` loop of
`update_customer_segments`: mutate the first element whose `id` equals the
target. -/
def updateSegList (sid : String) (patch : Json) : List Json → Except Unit (Option (List Json))
  | [] => .ok none
  | seg :: rest =>
    match seg with
    | .obj f =>
      if keyMatches f "id" sid then
        .ok (some (segApply f patch :: rest))
      else
        match updateSegList sid patch rest with
        | .ok (some rest') => .ok (some (seg :: rest'))
        | .ok none => .ok none
        | .error e => .error e
    | _ => .error ()

/-- Success payload of `update_customer_segments`: it echoes the segment id
and the raw patch (`"updates": updates_dict`); the merged record itself is
only persisted, not returned. -/
def segmentsPayload (sid : String) (patch : Json) : Json :=
  .obj [("success", .bool true),
        ("message", .str ("Customer segment " ++ sid ++ " updated successfully")),
        ("segment_id", .str sid),
        ("updates", patch)]

/-- Result of `update_customer_segments`. -/
inductive SegResult where
  | notFound (segment_id : String)
  | exn
  | ok (payload : Json) (newData : Json)

/-- `canvas_tools.update_customer_segments`, document state explicit. -/
def update_customer_segments (data : Json) (sid : String) (patch : Json) : SegResult :=
  match data with
  | .obj kvs =>
    match toIter ((lookupKey kvs "customer_segments").getD (.arr [])) with
    | none => .exn
    | some segs =>
      match updateSegList sid patch segs with
      | .error _ => .exn
      | .ok none => .notFound sid
      | .ok (some segs') =>
          .ok (segmentsPayload sid patch) (.obj (setKey kvs "customer_segments" (.arr segs')))
  | _ => .exn

/-- The segments document on disk after `update_customer_segments`. -/
def segmentsSaved (data : Json) (r : SegResult) : Json :=
  match r with
  | .ok _ d => d
  | _ => data

/-- Lookup of a top-level key of a JSON document (the observation used to
state merge and frame properties). -/
def docLookup (j : Json) (k : String) : Option Json :=
  match j with
  | .obj kvs => lookupKey kvs k
  | _ => none

-- ### Session initialization (`fastapi_app.initialize_session`, `init_chat`)
/-- The per-session record stored by `initialize_session`: the ADK session's
`state` dict together with the sprint item id kept in the `active_sessions`
entry.  The ADK `InMemorySessionService` store and the module-level
`active_sessions` dict are both keyed stores written unconditionally at the
session id (the spec fixes the create-on-existing behaviour by declaring the
init endpoint idempotent per session id), so the two are modelled as a single
registry from session id to this record. -/
structure SessionEntry where
  state : List (String × Json)
  sprint_item_id : String

/-- The session state written by `initialize_session` immediately after
creating the session. -/
def initialSessionState (sprint_item_id : String) : List (String × Json) :=
  [("current_sprint_item", .str sprint_item_id),
   ("current_phase", .str "design"),
   ("phase_summaries", .obj []),
   ("user_preferences", .obj []),
   ("workflow_progress", .obj [])]

/-- `fastapi_app.initialize_session`: create the session, seed its state, and
register it under its id. -/
def initialize_session (reg : List (String × SessionEntry))
    (session_id sprint_item_id : String) : List (String × SessionEntry) :=
  setKey reg session_id ⟨initialSessionState sprint_item_id, sprint_item_id⟩

/-- The body returned by `POST /api/chat/init`. -/
def initChatResponse (session_id sprint_item_id : String) : Json :=
  .obj [("message", .str "Chat session initialized successfully"),
        ("session_id", .str session_id),
        ("sprint_item_id", .str sprint_item_id),
        ("phase", .str "design")]

/-- `fastapi_app.init_chat`: initialize the session and answer with the
`design` phase. -/
def init_chat (reg : List (String × SessionEntry)) (session_id sprint_item_id : String) :
    List (String × SessionEntry) × Json :=
  (initialize_session reg session_id sprint_item_id,
   initChatResponse session_id sprint_item_id)

-- ### Phase state machine
/-- The workflow phases of the session (`current_phase` values). -/
inductive Phase where
  | design
  | execute
  | report
  | learn
  | completed
deriving DecidableEq

/-- The single legal successor of each phase in the order
design → execute → report → learn → completed. -/
def nextPhase : Phase → Option Phase
  | .design => some .execute
  | .execute => some .report
  | .report => some .learn
  | .learn => some .completed
  | .completed => none

/-- The phase name as stored in `session.state["current_phase"]`. -/
def phaseName : Phase → String
  | .design => "design"
  | .execute => "execute"
  | .report => "report"
  | .learn => "learn"
  | .completed => "completed"

/-- Error kind of a rejected phase change. -/
inductive TransitionError where
  | invalidTransition
deriving DecidableEq

/-- The phase-relevant part of a session's state. -/
structure PhaseSessionState where
  current_phase : Phase
  sprint_item : String
  summaries : List (String × String)
deriving DecidableEq

/-- Modelled from the spec: the Phase State Machine of spec §4.4.  The source
keeps `current_phase` in `session.state` (set to `"design"` by
`initialize_session`) and realises the phase ordering only as
natural-language instructions in the sequential agent prompts
(`backend/app/copilot/agent.py`, "Key Rules"); no transition-validating code
exists under src.  Per the spec: a requested target equal to the current
phase or to its single legal successor is accepted (storing the outgoing
phase's summary on an advance); the reset completed → design with a new
sprint item clears the summaries; every other request is rejected with
`InvalidTransition` and the state is unchanged. -/
def setCurrentPhase (s : PhaseSessionState) (target : Phase) (summary : String)
    (newItem : Option String) : Except TransitionError PhaseSessionState :=
  if target = s.current_phase then
    .ok s
  else if nextPhase s.current_phase = some target then
    .ok ⟨target, s.sprint_item, setKey s.summaries (phaseName s.current_phase) summary⟩
  else
    match newItem with
    | some item =>
      if s.current_phase = .completed ∧ target = .design then
        .ok ⟨.design, item, []⟩
      else .error .invalidTransition
    | none => .error .invalidTransition

/-- The session state after a phase-change request: the new state on success,
the previous state when the request was rejected. -/
def phaseApplied (s : PhaseSessionState) (r : Except TransitionError PhaseSessionState) :
    PhaseSessionState :=
  match r with
  | .ok s' => s'
  | .error _ => s

-- ### Concurrent updates to one document
/-- State of one document file and two concurrent callers of the update tool
for it: the complete on-disk document (`_save_json_file` goes through
write-temp-then-rename, so readers only ever see complete documents) and the
private copy each caller obtained from `_load_json_file`. -/
structure RaceState where
  file : Json
  loaded1 : Option Json
  loaded2 : Option Json

/-- The visible steps of the two callers: each runs load then save, but the
source takes no lock, so the four steps may interleave arbitrarily. -/
inductive RaceStep where
  | load1
  | load2
  | save1
  | save2

/-- Semantics of one step: a load snapshots the current file; a save runs the
whole merge of `update_business_model_canvas` on the snapshot and atomically
replaces the file with the result. -/
def raceStep (s1 : String) (p1 : Json) (s2 : String) (p2 : Json)
    (st : RaceState) : RaceStep → RaceState
  | .load1 => ⟨st.file, some st.file, st.loaded2⟩
  | .load2 => ⟨st.file, st.loaded1, some st.file⟩
  | .save1 =>
    match st.loaded1 with
    | some d => ⟨canvasSaved d (update_business_model_canvas d s1 p1), st.loaded1, st.loaded2⟩
    | none => st
  | .save2 =>
    match st.loaded2 with
    | some d => ⟨canvasSaved d (update_business_model_canvas d s2 p2), st.loaded1, st.loaded2⟩
    | none => st

/-- Run a schedule of steps. -/
def runRace (s1 : String) (p1 : Json) (s2 : String) (p2 : Json)
    (st : RaceState) : List RaceStep → RaceState
  | [] => st
  | step :: rest => runRace s1 p1 s2 p2 (raceStep s1 p1 s2 p2 st step) rest

-- ### Streaming relay (`fastapi_app.stream_agent_response_websocket`)
/-- One event of the engine's `runner.run_async` stream, as observed by the
relay: its author, the text of its first content part when present
(`none` models a missing/empty `content`/`parts`/`text`), whether it is a
streamed token chunk (the event.partial flag), and `event.is_final_response()`. -/
structure AdkEvent where
  author : String
  text : Option String
  streamed : Bool
  finalResponse : Bool

/-- A message sent over the websocket to the client: a text increment or the
terminal completion marker `--streaming ended--`. -/
inductive WsMsg where
  | chunk (t : String)
  | terminal

/-- The event loop of `stream_agent_response_websocket`: process only events
authored by `sprint_coordinator` with non-empty text; forward streamed
chunks as they arrive; on a final response send the terminal marker and
`break`.  Every other event is skipped. -/
def relayOutputs : List AdkEvent → List WsMsg
  | [] => []
  | e :: rest =>
    match e.text with
    | some t =>
      if e.author = "sprint_coordinator" ∧ t ≠ "" then
        if e.streamed then WsMsg.chunk t :: relayOutputs rest
        else if e.finalResponse then [WsMsg.terminal]
        else relayOutputs rest
      else relayOutputs rest
    | none => relayOutputs rest

/-- An event that makes the relay emit the terminal marker: authored by the
primary responder, non-empty text, not a streamed chunk, final. -/
def qualFinal (e : AdkEvent) : Bool :=
  decide (e.author = "sprint_coordinator") &&
    (match e.text with
     | some t => decide (t ≠ "")
     | none => false) &&
    !e.streamed && e.finalResponse

/-- Number of terminal markers in a websocket message sequence. -/
def numTerminals : List WsMsg → Nat
  | [] => 0
  | WsMsg.chunk _ :: rest => numTerminals rest
  | WsMsg.terminal :: rest => numTerminals rest + 1

/-- The client-visible text: the chunks concatenated in delivery order. -/
def chunksText : List WsMsg → String
  | [] => ""
  | WsMsg.chunk t :: rest => t ++ chunksText rest
  | WsMsg.terminal :: rest => chunksText rest

/-- The engine's generated text of the turn, in generation order: the text of
the primary responder's streamed chunks up to the final response that ends
the turn. -/
def engineText : List AdkEvent → String
  | [] => ""
  | e :: rest =>
    match e.text with
    | some t =>
      if e.author = "sprint_coordinator" ∧ t ≠ "" then
        if e.streamed then t ++ engineText rest
        else if e.finalResponse then ""
        else engineText rest
      else engineText rest
    | none => engineText rest

-- ### C7 — load defaults
/-- C7: for every document, a missing backing file or corrupt (unparseable)
JSON makes `load` return the documented empty default — the empty sprints
structure `{"sprints": [], "sprint_analysis": {}}` for the sprints document
and the empty mapping `{}` for the canvas and segments documents — instead
of failing the caller; otherwise `load` returns the current full stored
document. -/
theorem C7_load_missing_or_corrupt_defaults :
    load_sprints_data .missing = .obj [("sprints", .arr []), ("sprint_analysis", .obj [])] ∧
    load_sprints_data .invalid = .obj [("sprints", .arr []), ("sprint_analysis", .obj [])] ∧
    load_json_file .missing = .obj [] ∧
    load_json_file .invalid = .obj [] ∧
    (∀ v : Json, load_sprints_data (.stored v) = v ∧ load_json_file (.stored v) = v) :=
  ⟨rfl, rfl, rfl, rfl, fun _ => ⟨rfl, rfl⟩⟩

-- ### Sprint tools: lemmas about the sprint scan
/-- A sprint that the scan passes over cleanly: a dict whose (possibly
defaulted) `items` iterates without exception and contains no matching
item. -/
def sprintScanMiss (item_id : String) (sp : Json) : Prop :=
  ∃ sf its, sp = Json.obj sf ∧
    toIter ((lookupKey sf "items").getD (.arr [])) = some its ∧
    findItem item_id its = .ok none

-- ### C9 — frame of update_sprint_item_status
/-- The exact shape of a successful `update_sprint_item_status`: the document
is a dict whose `sprints` key holds a list; that list splits at the first
sprint containing a matching item (all earlier sprints scan to a miss); the
matched sprint's `items` key holds a list that splits at the first matching
item (all earlier items are non-matching dicts); and the saved document is
the original with exactly that item replaced by `setItemFields` of its
fields — every other item, sprint, and top-level key is carried over
unchanged. -/
def itemUpdateOutcome (data d' : Json) (item_id status notes : String) : Prop :=
  ∃ kvs sprints spre sf its pre f suf ssuf,
    data = Json.obj kvs ∧
    lookupKey kvs "sprints" = some (Json.arr sprints) ∧
    sprints = spre ++ Json.obj sf :: ssuf ∧
    (∀ sp ∈ spre, sprintScanMiss item_id sp) ∧
    lookupKey sf "items" = some (Json.arr its) ∧
    its = pre ++ Json.obj f :: suf ∧
    (∀ x ∈ pre, ∃ g, x = Json.obj g ∧ keyMatches g "item_id" item_id = false) ∧
    keyMatches f "item_id" item_id = true ∧
    d' = Json.obj (setKey kvs "sprints" (Json.arr (spre ++
          Json.obj (setKey sf "items" (Json.arr (pre ++
            Json.obj (setItemFields f status notes) :: suf))) :: ssuf)))

/-- A concrete sprints document: one sprint `s1` with a single pending item
`s1_item_1`, plus a `sprint_analysis` key. -/
def sampleSprintsDoc : Json :=
  Json.obj [("sprints", Json.arr [Json.obj
      [("sprint_id", Json.str "s1"),
       ("items", Json.arr [Json.obj
          [("item_id", Json.str "s1_item_1"),
           ("status", Json.str "pending"),
           ("task", Json.str "t")]])]]),
    ("sprint_analysis", Json.obj [])]

/-- `sampleSprintsDoc` after `update_sprint_item_status` with status
`completed` and notes `done`. -/
def sampleSprintsDocUpdated : Json :=
  Json.obj [("sprints", Json.arr [Json.obj
      [("sprint_id", Json.str "s1"),
       ("items", Json.arr [Json.obj
          [("item_id", Json.str "s1_item_1"),
           ("status", Json.str "completed"),
           ("task", Json.str "t"),
           ("notes", Json.str "done")]])]]),
    ("sprint_analysis", Json.obj [])]

/-- The number of top-level fields of a JSON object (used to separate
concrete unequal objects). -/
def topFieldCount : Json → Nat
  | .obj fields => fields.length
  | _ => 0

/-- The one-segment document of the spec example: `seg_03` with a name and
an existing `pain_points` list. -/
def sampleSegmentsKvs : List (String × Json) :=
  [("customer_segments", Json.arr [Json.obj
      [("id", Json.str "seg_03"),
       ("name", Json.str "Starters"),
       ("pain_points", Json.arr [Json.str "old"])]])]

/-- The patch of the spec example: `{"pain_points": ["slow onboarding"]}`. -/
def samplePainPatch : List (String × Json) :=
  [("pain_points", Json.arr [Json.str "slow onboarding"])]

/-- The full updated `seg_03` record after the example patch. -/
def sampleUpdatedRecord : Json :=
  Json.obj [("id", Json.str "seg_03"),
            ("name", Json.str "Starters"),
            ("pain_points", Json.arr [Json.str "slow onboarding"])]

-- ### Theorems

-- ### Basic lemmas about the association-list primitives
theorem lookupKey_setKey_self {α : Type} (kvs : List (String × α)) (k : String) (v : α) :
    lookupKey (setKey kvs k v) k = some v := by
  induction kvs with
  | nil => simp [setKey, lookupKey]
  | cons p rest ih =>
    by_cases h : p.1 = k
    · simp [setKey, h, lookupKey]
    · simp [setKey, h, lookupKey, ih]

theorem lookupKey_setKey_ne {α : Type} (kvs : List (String × α)) (k k' : String) (v : α)
    (h : k' ≠ k) : lookupKey (setKey kvs k v) k' = lookupKey kvs k' := by
  induction kvs with
  | nil => simp [setKey, lookupKey, Ne.symm h]
  | cons p rest ih =>
    by_cases hp : p.1 = k
    · simp [setKey, hp, lookupKey, Ne.symm h]
    · by_cases hp' : p.1 = k'
      · simp [setKey, hp, lookupKey, hp', h]
      · simp [setKey, hp, lookupKey, hp', ih]

theorem setKey_setKey_same {α : Type} (kvs : List (String × α)) (k : String) (v w : α) :
    setKey (setKey kvs k v) k w = setKey kvs k w := by
  induction kvs with
  | nil => simp [setKey]
  | cons p rest ih =>
    by_cases h : p.1 = k
    · simp [setKey, h]
    · simp [setKey, h, ih]

theorem lookupKey_append {α : Type} (xs ys : List (String × α)) (k : String) :
    lookupKey (xs ++ ys) k = firstSome (lookupKey xs k) (lookupKey ys k) := by
  induction xs with
  | nil => simp [lookupKey, firstSome]
  | cons p rest ih =>
    by_cases h : p.1 = k
    · simp [lookupKey, h, firstSome]
    · simp [lookupKey, h, ih]

theorem firstSome_assoc {α : Type} (a b c : Option α) :
    firstSome (firstSome a b) c = firstSome a (firstSome b c) := by
  cases a <;> cases b <;> simp [firstSome]

theorem firstSome_none_right {α : Type} (a : Option α) : firstSome a none = a := by
  cases a <;> simp [firstSome]

theorem lookupKey_eq_none_of_not_mem {α : Type} (kvs : List (String × α)) (k : String)
    (h : k ∉ kvs.map Prod.fst) : lookupKey kvs k = none := by
  induction kvs with
  | nil => simp [lookupKey]
  | cons p rest ih =>
    simp only [List.map_cons, List.mem_cons] at h
    push_neg at h
    simp [lookupKey, Ne.symm h.1, ih h.2]

/-- `dictUpdate` looked up at `k`: the last binding of the patch wins,
otherwise the base binding survives. -/
theorem lookupKey_dictUpdate (patch : List (String × Json)) :
    ∀ (base : List (String × Json)) (k : String),
      lookupKey (dictUpdate base patch) k =
        firstSome (lookupKey patch.reverse k) (lookupKey base k) := by
  induction patch with
  | nil => intro base k; simp [dictUpdate, lookupKey, firstSome]
  | cons p rest ih =>
    intro base k
    have hstep : dictUpdate base (p :: rest) = dictUpdate (setKey base p.1 p.2) rest := by
      simp [dictUpdate]
    rw [hstep, ih]
    rw [List.reverse_cons, lookupKey_append, firstSome_assoc]
    congr 1
    by_cases h : p.1 = k
    · subst h
      simp [lookupKey, lookupKey_setKey_self, firstSome]
    · simp [lookupKey, h, firstSome, lookupKey_setKey_ne _ _ _ _ (fun h' => h h'.symm)]

theorem lookupKey_reverse_of_nodup (kvs : List (String × Json))
    (h : (kvs.map Prod.fst).Nodup) (k : String) :
    lookupKey kvs.reverse k = lookupKey kvs k := by
  induction kvs with
  | nil => rfl
  | cons p rest ih =>
    simp only [List.map_cons, List.nodup_cons] at h
    rw [List.reverse_cons, lookupKey_append, ih h.2]
    by_cases hk : p.1 = k
    · subst hk
      rw [lookupKey_eq_none_of_not_mem rest p.1 h.1]
      simp [lookupKey, firstSome]
    · simp [lookupKey, hk, firstSome_none_right]

/-- Merging a patch with distinct keys: patch binding wins, base binding is
preserved otherwise. -/
theorem lookupKey_dictUpdate_nodup (base patch : List (String × Json))
    (h : (patch.map Prod.fst).Nodup) (k : String) :
    lookupKey (dictUpdate base patch) k =
      firstSome (lookupKey patch k) (lookupKey base k) := by
  rw [lookupKey_dictUpdate, lookupKey_reverse_of_nodup patch h]

theorem dictUpdate_cons_of_not_mem (patch : List (String × Json)) :
    ∀ (base : List (String × Json)) (k : String) (v : Json),
      k ∉ patch.map Prod.fst →
      dictUpdate ((k, v) :: base) patch = (k, v) :: dictUpdate base patch := by
  induction patch with
  | nil => intro base k v _; rfl
  | cons q qs ih =>
    intro base k v h
    simp only [List.map_cons, List.mem_cons] at h
    push_neg at h
    have hstep : ∀ b : List (String × Json),
        dictUpdate b (q :: qs) = dictUpdate (setKey b q.1 q.2) qs := by
      intro b; simp [dictUpdate]
    rw [hstep, hstep base]
    have hset : setKey ((k, v) :: base) q.1 q.2 = (k, v) :: setKey base q.1 q.2 := by
      simp [setKey, h.1]
    rw [hset, ih _ _ _ h.2]

/-- A patch with distinct keys merged into the empty dict is the patch itself. -/
theorem dictUpdate_nil_of_nodup (patch : List (String × Json))
    (h : (patch.map Prod.fst).Nodup) : dictUpdate [] patch = patch := by
  induction patch with
  | nil => rfl
  | cons p rest ih =>
    simp only [List.map_cons, List.nodup_cons] at h
    have hstep : dictUpdate [] (p :: rest) = dictUpdate ((p.1, p.2) :: []) rest := by
      simp [dictUpdate, setKey]
    rw [hstep, dictUpdate_cons_of_not_mem rest [] p.1 p.2 h.1, ih h.2]

-- ### C8 — chat init is idempotent
/-- C8: for every session id and sprint item id, `init_chat` creates the
session with `current_phase = "design"` and answers with that phase, and it
is idempotent per session id: a second invocation with the same arguments
succeeds and leaves the registered session in the same state as after the
first invocation (the registry, and the response, are identical). -/
theorem C8_init_chat_idempotent (reg : List (String × SessionEntry)) (sid item : String) :
    docLookup (init_chat reg sid item).2 "phase" = some (Json.str "design") ∧
    lookupKey (init_chat reg sid item).1 sid = some ⟨initialSessionState item, item⟩ ∧
    lookupKey (initialSessionState item) "current_phase" = some (Json.str "design") ∧
    init_chat (init_chat reg sid item).1 sid item = init_chat reg sid item := by
  refine ⟨rfl, lookupKey_setKey_self reg sid _, rfl, ?_⟩
  unfold init_chat initialize_session
  rw [setKey_setKey_same]

-- ### C4 — phase transitions (spec-modelled)
/-- C4: for every session state and requested target phase, setting
`current_phase` to anything other than the current phase or its single legal
successor in the order design → execute → report → learn → completed (with
the sole exception of the completed → design reset with a new sprint item)
is rejected with an `InvalidTransition` error, and the session state is left
unchanged on rejection; in particular, from `design` only `execute` is a
legal next phase.  Stated over the Phase State Machine modelled from spec
§4.4 (see `setCurrentPhase`): the source has no transition-validating code. -/
theorem C4_invalid_phase_transitions_rejected (s : PhaseSessionState) (target : Phase)
    (summary : String) (newItem : Option String) :
    ((target ≠ s.current_phase ∧ nextPhase s.current_phase ≠ some target ∧
        ¬(s.current_phase = Phase.completed ∧ target = Phase.design ∧ newItem.isSome = true)) →
      setCurrentPhase s target summary newItem = .error .invalidTransition ∧
      phaseApplied s (setCurrentPhase s target summary newItem) = s) ∧
    (s.current_phase = Phase.design → target ≠ Phase.design → target ≠ Phase.execute →
      setCurrentPhase s target summary newItem = .error .invalidTransition) := by
  constructor
  · rintro ⟨hcur, hnext, hreset⟩
    have hres : setCurrentPhase s target summary newItem = .error .invalidTransition := by
      unfold setCurrentPhase
      rw [if_neg hcur, if_neg hnext]
      cases newItem with
      | none => rfl
      | some item =>
        have hc : ¬(s.current_phase = Phase.completed ∧ target = Phase.design) :=
          fun h => hreset ⟨h.1, h.2, rfl⟩
        simp [hc]
    exact ⟨hres, by rw [hres]; rfl⟩
  · intro hd h1 h2
    have hcur : target ≠ s.current_phase := by rw [hd]; exact h1
    have hnext : nextPhase s.current_phase ≠ some target := by
      rw [hd]
      intro hsome
      exact h2 (Option.some.inj hsome).symm
    unfold setCurrentPhase
    rw [if_neg hcur, if_neg hnext]
    cases newItem with
    | none => rfl
    | some item =>
      have hc : ¬(s.current_phase = Phase.completed ∧ target = Phase.design) := by
        rw [hd]
        rintro ⟨h, -⟩
        exact Phase.noConfusion h
      simp [hc]

/-- C4 witness: from `design`, requesting `report` (skipping `execute`) is
rejected with `InvalidTransition` and the session state is unchanged. -/
theorem C4_witness :
    setCurrentPhase ⟨Phase.design, "s1_item_1", []⟩ Phase.report "" none
      = .error .invalidTransition ∧
    phaseApplied ⟨Phase.design, "s1_item_1", []⟩
        (setCurrentPhase ⟨Phase.design, "s1_item_1", []⟩ Phase.report "" none)
      = ⟨Phase.design, "s1_item_1", []⟩ :=
  (C4_invalid_phase_transitions_rejected ⟨Phase.design, "s1_item_1", []⟩ Phase.report "" none).1
    ⟨by decide, by decide, by decide⟩

-- ### C5 — concurrent updates to the same document
/-- C5 counterexample: two parallel callers of the canvas update, both of
which load before either saves (the schedule load1, load2, save1, save2,
which nothing in the source prevents: there is no lock and no critical
section around the load–merge–save sequence).  Starting from the empty
document, caller 1 writes section "A" and caller 2 writes section "B", yet
the final document contains only section "B" — caller 1's patch is lost, so
it is not the case that all patches from parallel callers are applied.  The
same two updates run without overlap (load1, save1, load2, save2) keep both
sections. -/
theorem C5_counterexample :
    (runRace "A" (Json.str "x") "B" (Json.str "y") ⟨Json.obj [], none, none⟩
        [RaceStep.load1, RaceStep.load2, RaceStep.save1, RaceStep.save2]).file
      = Json.obj [("B", Json.str "y")] ∧
    docLookup (runRace "A" (Json.str "x") "B" (Json.str "y") ⟨Json.obj [], none, none⟩
        [RaceStep.load1, RaceStep.load2, RaceStep.save1, RaceStep.save2]).file "A"
      = none ∧
    docLookup (runRace "A" (Json.str "x") "B" (Json.str "y") ⟨Json.obj [], none, none⟩
        [RaceStep.load1, RaceStep.save1, RaceStep.load2, RaceStep.save2]).file "A"
      = some (Json.str "x") :=
  ⟨rfl, rfl, rfl⟩

/-- C5 (amended): every write goes through the whole-document
merge-and-replace of the update tool, so each on-disk state is a complete
document (the model's file state is a complete JSON value by construction,
matching write-temp-then-rename), but there is no per-document critical
section: the update is an unsynchronized load–merge–save, so when two
callers both load before either saves, the second save overwrites the first
and the first caller's patch is lost entirely (the final document is exactly
what the second update alone would have produced from the original
document); only non-overlapping schedules apply both patches. -/
theorem C5_lost_update_on_interleaving (d : Json) (s1 s2 : String) (p1 p2 : Json) :
    (runRace s1 p1 s2 p2 ⟨d, none, none⟩
        [RaceStep.load1, RaceStep.load2, RaceStep.save1, RaceStep.save2]).file
      = canvasSaved d (update_business_model_canvas d s2 p2) ∧
    (runRace s1 p1 s2 p2 ⟨d, none, none⟩
        [RaceStep.load1, RaceStep.save1, RaceStep.load2, RaceStep.save2]).file
      = canvasSaved (canvasSaved d (update_business_model_canvas d s1 p1))
          (update_business_model_canvas
            (canvasSaved d (update_business_model_canvas d s1 p1)) s2 p2) :=
  ⟨rfl, rfl⟩

-- ### C6 — streaming relay
theorem relayOutputs_numTerminals (es : List AdkEvent) :
    numTerminals (relayOutputs es) = (if es.any qualFinal then 1 else 0) := by
  induction es with
  | nil => rfl
  | cons e rest ih =>
    cases htext : e.text with
    | none =>
      simp only [relayOutputs, htext, List.any_cons, qualFinal]
      simp [ih]
    | some t =>
      by_cases ha : e.author = "sprint_coordinator"
      · by_cases ht : t = ""
        · subst ht
          simp only [relayOutputs, htext, List.any_cons, qualFinal, ha]
          simp [ih]
        · cases hs : e.streamed with
          | true =>
            simp only [relayOutputs, htext, List.any_cons, qualFinal, ha, hs]
            simp [ht, numTerminals, ih]
          | false =>
            cases hf : e.finalResponse with
            | true =>
              simp only [relayOutputs, htext, List.any_cons, qualFinal, ha, hs, hf]
              simp [ht, numTerminals]
            | false =>
              simp only [relayOutputs, htext, List.any_cons, qualFinal, ha, hs, hf]
              simp [ht, ih]
      · simp only [relayOutputs, htext, List.any_cons, qualFinal, ha]
        simp [ih]

theorem relayOutputs_filter_author (es : List AdkEvent) :
    relayOutputs (es.filter (fun e => decide (e.author = "sprint_coordinator")))
      = relayOutputs es := by
  induction es with
  | nil => rfl
  | cons e rest ih =>
    by_cases ha : e.author = "sprint_coordinator"
    · cases htext : e.text with
      | none => simp [List.filter_cons, ha, relayOutputs, htext, ih]
      | some t =>
        by_cases ht : t = ""
        · subst ht
          simp [List.filter_cons, ha, relayOutputs, htext, ih]
        · cases hs : e.streamed with
          | true => simp [List.filter_cons, ha, relayOutputs, htext, ht, hs, ih]
          | false =>
            cases hf : e.finalResponse with
            | true => simp [List.filter_cons, ha, relayOutputs, htext, ht, hs, hf]
            | false => simp [List.filter_cons, ha, relayOutputs, htext, ht, hs, hf, ih]
    · cases htext : e.text with
      | none => simp [List.filter_cons, ha, relayOutputs, htext, ih]
      | some t => simp [List.filter_cons, ha, relayOutputs, htext, ih]

theorem relayOutputs_chunksText (es : List AdkEvent) :
    chunksText (relayOutputs es) = engineText es := by
  induction es with
  | nil => rfl
  | cons e rest ih =>
    cases htext : e.text with
    | none => simp [relayOutputs, engineText, htext, ih]
    | some t =>
      by_cases ha : e.author = "sprint_coordinator"
      · by_cases ht : t = ""
        · subst ht
          simp [relayOutputs, engineText, htext, ha, ih]
        · cases hs : e.streamed with
          | true => simp [relayOutputs, engineText, htext, ha, ht, hs, chunksText, ih]
          | false =>
            cases hf : e.finalResponse with
            | true => simp [relayOutputs, engineText, htext, ha, ht, hs, hf, chunksText]
            | false => simp [relayOutputs, engineText, htext, ha, ht, hs, hf, ih]
      · simp [relayOutputs, engineText, htext, ha, ih]

/-- C6 (amended): for every engine event stream driven by the relay, at most
one terminal completion marker is delivered, and exactly one exactly when
the stream contains a final-response event from the designated primary
responder (`sprint_coordinator`) with non-empty text — a stream without such
an event (for example one that ends after partial chunks) produces no
terminal event; only the primary responder's events are forwarded (deleting
all other authors' events does not change the client-visible messages); and
the client-visible text increments, concatenated in delivery order, equal
the primary responder's generated text in generation order up to the final
response that ends the turn. -/
theorem C6_relay_stream_contract (es : List AdkEvent) :
    numTerminals (relayOutputs es) = (if es.any qualFinal then 1 else 0) ∧
    relayOutputs (es.filter (fun e => decide (e.author = "sprint_coordinator")))
      = relayOutputs es ∧
    chunksText (relayOutputs es) = engineText es :=
  ⟨relayOutputs_numTerminals es, relayOutputs_filter_author es, relayOutputs_chunksText es⟩

/-- C6 counterexample: a turn whose engine stream consists of a single
streamed text chunk from the primary responder and then ends (no
final-response event, no exception).  The relay forwards the chunk and then
leaves the loop without ever sending the completion marker: zero terminal
events are delivered, not exactly one. -/
theorem C6_counterexample :
    relayOutputs [⟨"sprint_coordinator", some "Hello", true, false⟩]
      = [WsMsg.chunk "Hello"] ∧
    numTerminals (relayOutputs [⟨"sprint_coordinator", some "Hello", true, false⟩]) = 0 :=
  ⟨rfl, rfl⟩

-- ### C1 — canvas update merges on matching shape
theorem lookupKey_ensureSection_ne (kvs : List (String × Json)) (sect k : String)
    (hk : k ≠ sect) : lookupKey (ensureSection kvs sect) k = lookupKey kvs k := by
  unfold ensureSection
  cases h : lookupKey kvs sect with
  | none => exact lookupKey_setKey_ne kvs sect k _ hk
  | some v => rfl

theorem applySectionUpdate_lookup_ne (kvs : List (String × Json)) (sect : String)
    (patch : Json) (k : String) (hk : k ≠ sect) :
    lookupKey (applySectionUpdate kvs sect patch) k = lookupKey kvs k := by
  unfold applySectionUpdate
  rw [lookupKey_setKey_ne _ _ _ _ hk, lookupKey_ensureSection_ne kvs sect k hk]

theorem applySectionUpdate_lookup_self (kvs : List (String × Json)) (sect : String)
    (patch : Json) :
    lookupKey (applySectionUpdate kvs sect patch) sect
      = some (mergedSectionValue (ensureSection kvs sect) sect patch) :=
  lookupKey_setKey_self _ _ _

theorem mergedSectionValue_obj_obj (kvs1 : List (String × Json)) (sect : String)
    (base p : List (String × Json)) (h : lookupKey kvs1 sect = some (Json.obj base)) :
    mergedSectionValue kvs1 sect (Json.obj p) = Json.obj (dictUpdate base p) := by
  unfold mergedSectionValue
  rw [h]

theorem mergedSectionValue_arr_arr (kvs1 : List (String × Json)) (sect : String)
    (l pl : List Json) (h : lookupKey kvs1 sect = some (Json.arr l)) :
    mergedSectionValue kvs1 sect (Json.arr pl) = Json.arr pl := by
  unfold mergedSectionValue
  rw [h]

theorem mergedSectionValue_default (kvs1 : List (String × Json)) (sect : String)
    (v patch : Json) (h : lookupKey kvs1 sect = some v)
    (hmm : mismatchShape (some v) patch) :
    mergedSectionValue kvs1 sect patch = patch := by
  unfold mergedSectionValue
  rw [h]
  cases v <;> cases patch <;> first | rfl | exact hmm.elim

/-- C1: for every canvas document (the BMC and VPC update tools share one
merge routine), every section key, and every well-formed JSON patch, the
update operation followed by a load yields the document transformed by
merge-on-matching-shape at that key: when the existing value and the patch
are both keyed mappings their keys are merged with the patch winning on
conflict and the other keys of the existing mapping preserved; when both are
ordered sequences the patch sequence fully replaces the existing one; in any
other shape combination (including the key not existing) the patch becomes
the new value at the key verbatim; and all other top-level keys of the
document are unchanged. -/
theorem C1_canvas_update_merge_on_matching_shape (kvs : List (String × Json))
    (sect : String) (patch : Json) (hwf : wfPatch patch) :
    ∃ d' : List (String × Json),
      update_business_model_canvas (Json.obj kvs) sect patch
        = .ok (bmcPayload sect patch) (Json.obj d') ∧
      update_value_proposition_canvas (Json.obj kvs) sect patch
        = .ok (vpcPayload sect patch) (Json.obj d') ∧
      load_json_file (.stored (Json.obj d')) = Json.obj d' ∧
      (∀ k, k ≠ sect → lookupKey d' k = lookupKey kvs k) ∧
      (∀ base p, lookupKey kvs sect = some (Json.obj base) → patch = Json.obj p →
        ∃ m, lookupKey d' sect = some (Json.obj m) ∧
          ∀ q, lookupKey m q = firstSome (lookupKey p q) (lookupKey base q)) ∧
      (∀ l pl, lookupKey kvs sect = some (Json.arr l) → patch = Json.arr pl →
        lookupKey d' sect = some (Json.arr pl)) ∧
      (mismatchShape (lookupKey kvs sect) patch → lookupKey d' sect = some patch) := by
  refine ⟨applySectionUpdate kvs sect patch, rfl, rfl, rfl, ?_, ?_, ?_, ?_⟩
  · intro k hk
    exact applySectionUpdate_lookup_ne kvs sect patch k hk
  · intro base p hbase hp
    subst hp
    have hens : ensureSection kvs sect = kvs := by
      unfold ensureSection
      rw [hbase]
    refine ⟨dictUpdate base p, ?_, fun q => lookupKey_dictUpdate_nodup base p hwf q⟩
    rw [applySectionUpdate_lookup_self, hens, mergedSectionValue_obj_obj kvs sect base p hbase]
  · intro l pl hl hp
    subst hp
    have hens : ensureSection kvs sect = kvs := by
      unfold ensureSection
      rw [hl]
    rw [applySectionUpdate_lookup_self, hens, mergedSectionValue_arr_arr kvs sect l pl hl]
  · intro hmm
    rw [applySectionUpdate_lookup_self]
    cases hsec : lookupKey kvs sect with
    | none =>
      have hens : ensureSection kvs sect = setKey kvs sect (.obj []) := by
        unfold ensureSection
        rw [hsec]
      have hlook : lookupKey (ensureSection kvs sect) sect = some (Json.obj []) := by
        rw [hens]
        exact lookupKey_setKey_self kvs sect _
      cases patch with
      | obj p =>
        rw [mergedSectionValue_obj_obj _ sect [] p hlook, dictUpdate_nil_of_nodup p hwf]
      | arr pl => rw [mergedSectionValue_default _ sect _ (Json.arr pl) hlook True.intro]
      | null => rw [mergedSectionValue_default _ sect _ Json.null hlook True.intro]
      | bool b => rw [mergedSectionValue_default _ sect _ (Json.bool b) hlook True.intro]
      | num n => rw [mergedSectionValue_default _ sect _ (Json.num n) hlook True.intro]
      | str s => rw [mergedSectionValue_default _ sect _ (Json.str s) hlook True.intro]
    | some v =>
      rw [hsec] at hmm
      have hens : ensureSection kvs sect = kvs := by
        unfold ensureSection
        rw [hsec]
      rw [hens, mergedSectionValue_default kvs sect v patch hsec hmm]

/-- C1 witness: the merge theorem applied to a concrete document
`{"KP": {"a": 1}}`, section `"KP"` and dict patch `{"b": 2}` (the
well-formedness hypothesis is discharged by computation). -/
theorem C1_witness :
    ∃ d' : List (String × Json),
      update_business_model_canvas (Json.obj [("KP", Json.obj [("a", Json.num 1)])])
          "KP" (Json.obj [("b", Json.num 2)])
        = .ok (bmcPayload "KP" (Json.obj [("b", Json.num 2)])) (Json.obj d') ∧
      update_value_proposition_canvas (Json.obj [("KP", Json.obj [("a", Json.num 1)])])
          "KP" (Json.obj [("b", Json.num 2)])
        = .ok (vpcPayload "KP" (Json.obj [("b", Json.num 2)])) (Json.obj d') ∧
      load_json_file (.stored (Json.obj d')) = Json.obj d' ∧
      (∀ k, k ≠ "KP" →
        lookupKey d' k = lookupKey [("KP", Json.obj [("a", Json.num 1)])] k) ∧
      (∀ base p,
        lookupKey [("KP", Json.obj [("a", Json.num 1)])] "KP" = some (Json.obj base) →
        Json.obj [("b", Json.num 2)] = Json.obj p →
        ∃ m, lookupKey d' "KP" = some (Json.obj m) ∧
          ∀ q, lookupKey m q = firstSome (lookupKey p q) (lookupKey base q)) ∧
      (∀ l pl,
        lookupKey [("KP", Json.obj [("a", Json.num 1)])] "KP" = some (Json.arr l) →
        Json.obj [("b", Json.num 2)] = Json.arr pl →
        lookupKey d' "KP" = some (Json.arr pl)) ∧
      (mismatchShape (lookupKey [("KP", Json.obj [("a", Json.num 1)])] "KP")
          (Json.obj [("b", Json.num 2)]) →
        lookupKey d' "KP" = some (Json.obj [("b", Json.num 2)])) :=
  C1_canvas_update_merge_on_matching_shape [("KP", Json.obj [("a", Json.num 1)])]
    "KP" (Json.obj [("b", Json.num 2)]) (by show ([("b", Json.num 2)].map Prod.fst).Nodup; decide)

-- ### Sprint tools: lemmas about the item scan
theorem keyMatches_true_iff (f : List (String × Json)) (key idv : String) :
    keyMatches f key idv = true ↔ lookupKey f key = some (Json.str idv) := by
  unfold keyMatches
  cases h : lookupKey f key with
  | none => simp
  | some v => cases v <;> simp

theorem setItemFields_lookup_status (f : List (String × Json)) (status notes : String) :
    lookupKey (setItemFields f status notes) "status" = some (Json.str status) := by
  unfold setItemFields
  by_cases hn : notes = ""
  · simp [hn, lookupKey_setKey_self]
  · simp only [if_pos hn]
    rw [lookupKey_setKey_ne _ _ _ _ (by decide), lookupKey_setKey_self]

theorem setItemFields_lookup_other (f : List (String × Json)) (status notes k : String)
    (h1 : k ≠ "status") (h2 : k ≠ "notes") :
    lookupKey (setItemFields f status notes) k = lookupKey f k := by
  unfold setItemFields
  by_cases hn : notes = ""
  · simp only [hn, ne_eq, not_true_eq_false, if_false]
    exact lookupKey_setKey_ne _ _ _ _ h1
  · simp only [if_pos hn]
    rw [lookupKey_setKey_ne _ _ _ _ h2, lookupKey_setKey_ne _ _ _ _ h1]

theorem setItemFields_lookup_notes_empty (f : List (String × Json)) (status : String) :
    lookupKey (setItemFields f status "") "notes" = lookupKey f "notes" := by
  unfold setItemFields
  simp only [ne_eq, not_true_eq_false, if_false]
  exact lookupKey_setKey_ne _ _ _ _ (by decide)

theorem setItemFields_lookup_notes_nonempty (f : List (String × Json)) (status notes : String)
    (hn : notes ≠ "") :
    lookupKey (setItemFields f status notes) "notes" = some (Json.str notes) := by
  unfold setItemFields
  simp only [if_pos hn]
  exact lookupKey_setKey_self _ _ _

theorem keyMatches_setItemFields (f : List (String × Json)) (status notes idv : String) :
    keyMatches (setItemFields f status notes) "item_id" idv = keyMatches f "item_id" idv := by
  unfold keyMatches
  rw [setItemFields_lookup_other f status notes "item_id" (by decide) (by decide)]

/-- Characterization of a successful inner item scan: the list splits at the
first matching item, everything before it is a non-matching dict, and only
the matched item is rewritten (by `setItemFields`). -/
theorem updateItems_ok_some (item_id status notes : String) :
    ∀ its its' : List Json, updateItems item_id status notes its = .ok (some its') →
      ∃ pre f suf, its = pre ++ Json.obj f :: suf ∧
        (∀ x ∈ pre, ∃ g, x = Json.obj g ∧ keyMatches g "item_id" item_id = false) ∧
        keyMatches f "item_id" item_id = true ∧
        its' = pre ++ Json.obj (setItemFields f status notes) :: suf := by
  intro its
  induction its with
  | nil => intro its' h; simp [updateItems] at h
  | cons item rest ih =>
    intro its' h
    cases item with
    | obj f =>
      by_cases hm : keyMatches f "item_id" item_id = true
      · simp only [updateItems, hm, if_true] at h
        obtain rfl : Json.obj (setItemFields f status notes) :: rest = its' := by
          simpa using h
        exact ⟨[], f, rest, rfl, by simp, hm, rfl⟩
      · simp only [updateItems, hm, if_false] at h
        cases hrec : updateItems item_id status notes rest with
        | error e => rw [hrec] at h; simp at h
        | ok o =>
          cases o with
          | none => rw [hrec] at h; simp at h
          | some rest' =>
            rw [hrec] at h
            obtain rfl : Json.obj f :: rest' = its' := by simpa using h
            obtain ⟨pre, g, suf, hsplit, hpre, hmg, hres⟩ := ih rest' hrec
            refine ⟨Json.obj f :: pre, g, suf, by simp [hsplit], ?_, hmg, by simp [hres]⟩
            intro x hx
            rcases List.mem_cons.mp hx with hx | hx
            · exact ⟨f, hx, Bool.eq_false_iff.mpr hm⟩
            · exact hpre x hx
    | null => simp [updateItems] at h
    | bool b => simp [updateItems] at h
    | num n => simp [updateItems] at h
    | str s => simp [updateItems] at h
    | arr xs => simp [updateItems] at h

/-- Completeness of the inner item scan: on a list of that split shape the
scan succeeds and rewrites exactly the matched item. -/
theorem updateItems_complete (item_id status notes : String) :
    ∀ (pre : List Json) (f : List (String × Json)) (suf : List Json),
      (∀ x ∈ pre, ∃ g, x = Json.obj g ∧ keyMatches g "item_id" item_id = false) →
      keyMatches f "item_id" item_id = true →
      updateItems item_id status notes (pre ++ Json.obj f :: suf)
        = .ok (some (pre ++ Json.obj (setItemFields f status notes) :: suf)) := by
  intro pre
  induction pre with
  | nil =>
    intro f suf _ hm
    simp [updateItems, hm]
  | cons x pre' ih =>
    intro f suf hpre hm
    obtain ⟨g, rfl, hg⟩ := hpre x (List.mem_cons_self x pre')
    have hrest := ih f suf (fun y hy => hpre y (List.mem_cons_of_mem _ hy)) hm
    simp [updateItems, hg, hrest]

/-- The item scans of the update tool and of `get_sprint_item` agree on
finding nothing. -/
theorem updateItems_none_iff (item_id status notes : String) :
    ∀ its : List Json,
      (updateItems item_id status notes its = .ok none ↔ findItem item_id its = .ok none) := by
  intro its
  induction its with
  | nil => simp [updateItems, findItem]
  | cons item rest ih =>
    cases item with
    | obj f =>
      by_cases hm : keyMatches f "item_id" item_id = true
      · simp [updateItems, findItem, hm]
      · have hm' : keyMatches f "item_id" item_id = false := Bool.eq_false_iff.mpr hm
        have hl : updateItems item_id status notes (Json.obj f :: rest)
            = (match updateItems item_id status notes rest with
               | .ok (some rest') => .ok (some (Json.obj f :: rest'))
               | .ok none => .ok none
               | .error e => .error e) := by
          simp [updateItems, hm']
        have hr : findItem item_id (Json.obj f :: rest) = findItem item_id rest := by
          simp [findItem, hm']
        rw [hl, hr, ← ih]
        cases hrec : updateItems item_id status notes rest with
        | error e => simp
        | ok o => cases o <;> simp
    | null => simp [updateItems, findItem]
    | bool b => simp [updateItems, findItem]
    | num n => simp [updateItems, findItem]
    | str s => simp [updateItems, findItem]
    | arr xs => simp [updateItems, findItem]

/-- Characterization of a successful `get_sprint_item` inner scan. -/
theorem findItem_ok_some (item_id : String) :
    ∀ (its : List Json) (it : Json), findItem item_id its = .ok (some it) →
      ∃ pre f suf, its = pre ++ Json.obj f :: suf ∧
        (∀ x ∈ pre, ∃ g, x = Json.obj g ∧ keyMatches g "item_id" item_id = false) ∧
        keyMatches f "item_id" item_id = true ∧
        it = Json.obj f := by
  intro its
  induction its with
  | nil => intro it h; simp [findItem] at h
  | cons item rest ih =>
    intro it h
    cases item with
    | obj f =>
      by_cases hm : keyMatches f "item_id" item_id = true
      · simp only [findItem, hm, if_true] at h
        obtain rfl : Json.obj f = it := by simpa using h
        exact ⟨[], f, rest, rfl, by simp, hm, rfl⟩
      · simp only [findItem, hm, if_false] at h
        obtain ⟨pre, g, suf, hsplit, hpre, hmg, hres⟩ := ih it h
        refine ⟨Json.obj f :: pre, g, suf, by simp [hsplit], ?_, hmg, hres⟩
        intro x hx
        rcases List.mem_cons.mp hx with hx | hx
        · exact ⟨f, hx, Bool.eq_false_iff.mpr hm⟩
        · exact hpre x hx
    | null => simp [findItem] at h
    | bool b => simp [findItem] at h
    | num n => simp [findItem] at h
    | str s => simp [findItem] at h
    | arr xs => simp [findItem] at h

/-- Completeness of the `get_sprint_item` inner scan. -/
theorem findItem_complete (item_id : String) :
    ∀ (pre : List Json) (f : List (String × Json)) (suf : List Json),
      (∀ x ∈ pre, ∃ g, x = Json.obj g ∧ keyMatches g "item_id" item_id = false) →
      keyMatches f "item_id" item_id = true →
      findItem item_id (pre ++ Json.obj f :: suf) = .ok (some (Json.obj f)) := by
  intro pre
  induction pre with
  | nil =>
    intro f suf _ hm
    simp [findItem, hm]
  | cons x pre' ih =>
    intro f suf hpre hm
    obtain ⟨g, rfl, hg⟩ := hpre x (List.mem_cons_self x pre')
    have hrest := ih f suf (fun y hy => hpre y (List.mem_cons_of_mem _ hy)) hm
    simp [findItem, hg, hrest]

/-- If iterating `d.get(key, [])` produced a list containing a dict element,
then `key` is present in `d` and holds exactly that list (dict or string
values iterate to strings, and the default `[]` is empty). -/
theorem lookup_key_arr_of_mem (kvs : List (String × Json)) (key : String)
    (xs : List Json) (f : List (String × Json))
    (hiter : toIter ((lookupKey kvs key).getD (.arr [])) = some xs)
    (hmem : Json.obj f ∈ xs) :
    lookupKey kvs key = some (Json.arr xs) := by
  cases hl : lookupKey kvs key with
  | none =>
    rw [hl] at hiter
    simp [toIter] at hiter
    subst hiter
    simp at hmem
  | some v =>
    rw [hl] at hiter
    cases v with
    | arr ys =>
      simp only [Option.getD, toIter] at hiter
      obtain rfl : ys = xs := by simpa using hiter
      rfl
    | obj kvs2 =>
      simp only [Option.getD, toIter] at hiter
      obtain rfl : kvs2.map (fun p => Json.str p.1) = xs := by simpa using hiter
      simp only [List.mem_map] at hmem
      obtain ⟨p, -, hp⟩ := hmem
      exact Json.noConfusion hp
    | str s =>
      simp only [Option.getD, toIter] at hiter
      obtain rfl : s.toList.map (fun c => Json.str (String.mk [c])) = xs := by simpa using hiter
      simp only [List.mem_map] at hmem
      obtain ⟨c, -, hc⟩ := hmem
      exact Json.noConfusion hc
    | null => simp [Option.getD, toIter] at hiter
    | bool b => simp [Option.getD, toIter] at hiter
    | num n => simp [Option.getD, toIter] at hiter

/-- Characterization of a successful outer sprint scan of
`update_sprint_item_status`: the sprint list splits at the first sprint
containing a matching item; everything before it scans to a miss; the
matched sprint's `items` key holds a real list; and only that sprint's
`items` value is rewritten. -/
theorem updateSprints_ok_some (item_id status notes : String) :
    ∀ sps sps' : List Json, updateSprints item_id status notes sps = .ok (some sps') →
      ∃ spre sf its its' ssuf,
        sps = spre ++ Json.obj sf :: ssuf ∧
        (∀ sp ∈ spre, sprintScanMiss item_id sp) ∧
        lookupKey sf "items" = some (Json.arr its) ∧
        updateItems item_id status notes its = .ok (some its') ∧
        sps' = spre ++ Json.obj (setKey sf "items" (Json.arr its')) :: ssuf := by
  intro sps
  induction sps with
  | nil => intro sps' h; simp [updateSprints] at h
  | cons sp rest ih =>
    intro sps' h
    cases sp with
    | obj sf =>
      cases hiter : toIter ((lookupKey sf "items").getD (.arr [])) with
      | none => simp [updateSprints, hiter] at h
      | some its =>
        cases hup : updateItems item_id status notes its with
        | error e => simp [updateSprints, hiter, hup] at h
        | ok o =>
          cases o with
          | some its' =>
            have heq : Json.obj (setKey sf "items" (Json.arr its')) :: rest = sps' := by
              have := h
              simp only [updateSprints, hiter, hup] at this
              simpa using this
            obtain ⟨pre, f, suf, hsplit, -, -, -⟩ :=
              updateItems_ok_some item_id status notes its its' hup
            have harr : lookupKey sf "items" = some (Json.arr its) :=
              lookup_key_arr_of_mem sf "items" its f hiter (by rw [hsplit]; simp)
            exact ⟨[], sf, its, its', rest, rfl, by simp, harr, hup, heq.symm⟩
          | none =>
            cases hrec : updateSprints item_id status notes rest with
            | error e => simp [updateSprints, hiter, hup, hrec] at h
            | ok o2 =>
              cases o2 with
              | none => simp [updateSprints, hiter, hup, hrec] at h
              | some rest' =>
                have heq : Json.obj sf :: rest' = sps' := by
                  have := h
                  simp only [updateSprints, hiter, hup, hrec] at this
                  simpa using this
                obtain ⟨spre, sf2, its2, its2', ssuf, hsplit, hpre, harr, hup2, hres⟩ :=
                  ih rest' hrec
                refine ⟨Json.obj sf :: spre, sf2, its2, its2', ssuf, by simp [hsplit], ?_,
                  harr, hup2, by rw [← heq, hres]; simp⟩
                intro x hx
                rcases List.mem_cons.mp hx with rfl | hx
                · exact ⟨sf, its, rfl, hiter,
                    (updateItems_none_iff item_id status notes its).mp hup⟩
                · exact hpre x hx
    | null => simp [updateSprints] at h
    | bool b => simp [updateSprints] at h
    | num n => simp [updateSprints] at h
    | str s => simp [updateSprints] at h
    | arr xs => simp [updateSprints] at h

/-- Completeness of the outer sprint scan of `update_sprint_item_status`. -/
theorem updateSprints_complete (item_id status notes : String) :
    ∀ (spre : List Json) (sf : List (String × Json)) (its its' ssuf : List Json),
      (∀ sp ∈ spre, sprintScanMiss item_id sp) →
      lookupKey sf "items" = some (Json.arr its) →
      updateItems item_id status notes its = .ok (some its') →
      updateSprints item_id status notes (spre ++ Json.obj sf :: ssuf)
        = .ok (some (spre ++ Json.obj (setKey sf "items" (Json.arr its')) :: ssuf)) := by
  intro spre
  induction spre with
  | nil =>
    intro sf its its' ssuf _ harr hup
    simp [updateSprints, harr, toIter, hup]
  | cons sp spre' ih =>
    intro sf its its' ssuf hpre harr hup
    obtain ⟨sf0, its0, rfl, hiter0, hfind0⟩ := hpre sp (List.mem_cons_self sp spre')
    have hup0 : updateItems item_id status notes its0 = .ok none :=
      (updateItems_none_iff item_id status notes its0).mpr hfind0
    have hrest := ih sf its its' ssuf (fun y hy => hpre y (List.mem_cons_of_mem _ hy)) harr hup
    simp [updateSprints, hiter0, hup0, hrest]

/-- Characterization of a successful outer scan of `get_sprint_item`. -/
theorem findItemSprints_ok_some (item_id : String) :
    ∀ (sps : List Json) (it : Json), findItemSprints item_id sps = .ok (some it) →
      ∃ spre sf its ssuf,
        sps = spre ++ Json.obj sf :: ssuf ∧
        (∀ sp ∈ spre, sprintScanMiss item_id sp) ∧
        toIter ((lookupKey sf "items").getD (.arr [])) = some its ∧
        findItem item_id its = .ok (some it) := by
  intro sps
  induction sps with
  | nil => intro it h; simp [findItemSprints] at h
  | cons sp rest ih =>
    intro it h
    cases sp with
    | obj sf =>
      cases hiter : toIter ((lookupKey sf "items").getD (.arr [])) with
      | none => simp [findItemSprints, hiter] at h
      | some its =>
        cases hf : findItem item_id its with
        | error e => simp [findItemSprints, hiter, hf] at h
        | ok o =>
          cases o with
          | some it0 =>
            have heq : it0 = it := by
              have := h
              simp only [findItemSprints, hiter, hf] at this
              simpa using this
            exact ⟨[], sf, its, rest, rfl, by simp, hiter, by rw [hf, heq]⟩
          | none =>
            have hstep : findItemSprints item_id (Json.obj sf :: rest)
                = findItemSprints item_id rest := by
              simp [findItemSprints, hiter, hf]
            rw [hstep] at h
            obtain ⟨spre, sf2, its2, ssuf, hsplit, hpre, hiter2, hf2⟩ := ih it h
            refine ⟨Json.obj sf :: spre, sf2, its2, ssuf, by simp [hsplit], ?_, hiter2, hf2⟩
            intro x hx
            rcases List.mem_cons.mp hx with rfl | hx
            · exact ⟨sf, its, rfl, hiter, hf⟩
            · exact hpre x hx
    | null => simp [findItemSprints] at h
    | bool b => simp [findItemSprints] at h
    | num n => simp [findItemSprints] at h
    | str s => simp [findItemSprints] at h
    | arr xs => simp [findItemSprints] at h

/-- Completeness of the outer scan of `get_sprint_item`. -/
theorem findItemSprints_complete (item_id : String) :
    ∀ (spre : List Json) (sf : List (String × Json)) (its ssuf : List Json) (it : Json),
      (∀ sp ∈ spre, sprintScanMiss item_id sp) →
      toIter ((lookupKey sf "items").getD (.arr [])) = some its →
      findItem item_id its = .ok (some it) →
      findItemSprints item_id (spre ++ Json.obj sf :: ssuf) = .ok (some it) := by
  intro spre
  induction spre with
  | nil =>
    intro sf its ssuf it _ hiter hf
    simp [findItemSprints, hiter, hf]
  | cons sp spre' ih =>
    intro sf its ssuf it hpre hiter hf
    obtain ⟨sf0, its0, rfl, hiter0, hfind0⟩ := hpre sp (List.mem_cons_self sp spre')
    have hrest := ih sf its ssuf it (fun y hy => hpre y (List.mem_cons_of_mem _ hy)) hiter hf
    simp [findItemSprints, hiter0, hfind0, hrest]

/-- C9: a successful `update_sprint_item_status` modifies at most the first
item whose `item_id` matches, and within that item only the `status` field
and — when the notes argument is non-empty — the `notes` field change; every
other field of that item, every other item, every other sprint, and every
other top-level key of the sprints document (including `sprint_analysis`)
are preserved exactly, and when the notes argument is empty any existing
`notes` field keeps its prior value. -/
theorem C9_update_status_frame (data : Json) (item_id status notes : String) (d' : Json)
    (h : update_sprint_item_status data item_id status notes = .ok d') :
    itemUpdateOutcome data d' item_id status notes ∧
    (∀ k, k ≠ "sprints" → docLookup d' k = docLookup data k) ∧
    (∀ f, lookupKey (setItemFields f status notes) "status" = some (Json.str status)) ∧
    (∀ f k, k ≠ "status" → k ≠ "notes" →
      lookupKey (setItemFields f status notes) k = lookupKey f k) ∧
    (notes = "" →
      ∀ f, lookupKey (setItemFields f status notes) "notes" = lookupKey f "notes") ∧
    (notes ≠ "" →
      ∀ f, lookupKey (setItemFields f status notes) "notes" = some (Json.str notes)) := by
  by_cases hv : status ∈ valid_statuses
  · cases data with
    | obj kvs =>
      cases hiter : toIter ((lookupKey kvs "sprints").getD (.arr [])) with
      | none => simp [update_sprint_item_status, hv, hiter] at h
      | some sprints =>
        cases hups : updateSprints item_id status notes sprints with
        | error e => simp [update_sprint_item_status, hv, hiter, hups] at h
        | ok o =>
          cases o with
          | none => simp [update_sprint_item_status, hv, hiter, hups] at h
          | some sprints' =>
            have hd' : d' = Json.obj (setKey kvs "sprints" (Json.arr sprints')) := by
              have := h
              simp only [update_sprint_item_status, hv, if_true, hiter, hups] at this
              exact (by simpa using this : _ = d').symm
            obtain ⟨spre, sf, its, its', ssuf, hsplit, hpre, harr, hupI, hres⟩ :=
              updateSprints_ok_some item_id status notes sprints sprints' hups
            obtain ⟨pre, f, suf, hits, hpre2, hmf, hres2⟩ :=
              updateItems_ok_some item_id status notes its its' hupI
            have harrs : lookupKey kvs "sprints" = some (Json.arr sprints) :=
              lookup_key_arr_of_mem kvs "sprints" sprints sf hiter (by rw [hsplit]; simp)
            refine ⟨⟨kvs, sprints, spre, sf, its, pre, f, suf, ssuf, rfl, harrs, hsplit,
                hpre, harr, hits, hpre2, hmf, ?_⟩, ?_, ?_, ?_, ?_, ?_⟩
            · rw [hd', hres, hres2]
            · intro k hk
              rw [hd']
              show lookupKey (setKey kvs "sprints" (Json.arr sprints')) k = lookupKey kvs k
              exact lookupKey_setKey_ne kvs "sprints" k _ hk
            · exact fun g => setItemFields_lookup_status g status notes
            · exact fun g k h1 h2 => setItemFields_lookup_other g status notes k h1 h2
            · intro hn g
              rw [hn]
              exact setItemFields_lookup_notes_empty g status
            · exact fun hn g => setItemFields_lookup_notes_nonempty g status notes hn
    | null => simp [update_sprint_item_status, hv] at h
    | bool b => simp [update_sprint_item_status, hv] at h
    | num n => simp [update_sprint_item_status, hv] at h
    | str s => simp [update_sprint_item_status, hv] at h
    | arr xs => simp [update_sprint_item_status, hv] at h
  · simp [update_sprint_item_status, hv] at h

/-- C9 witness: the frame theorem applied to the concrete document
`sampleSprintsDoc`, updating `s1_item_1` to `completed` with notes `done`;
the success hypothesis is discharged by computation. -/
theorem C9_witness :
    itemUpdateOutcome sampleSprintsDoc sampleSprintsDocUpdated "s1_item_1" "completed" "done" ∧
    (∀ k, k ≠ "sprints" →
      docLookup sampleSprintsDocUpdated k = docLookup sampleSprintsDoc k) ∧
    (∀ f, lookupKey (setItemFields f "completed" "done") "status"
      = some (Json.str "completed")) ∧
    (∀ f k, k ≠ "status" → k ≠ "notes" →
      lookupKey (setItemFields f "completed" "done") k = lookupKey f k) ∧
    ("done" = "" →
      ∀ f, lookupKey (setItemFields f "completed" "done") "notes" = lookupKey f "notes") ∧
    ("done" ≠ "" →
      ∀ f, lookupKey (setItemFields f "completed" "done") "notes"
        = some (Json.str "done")) :=
  C9_update_status_frame sampleSprintsDoc "s1_item_1" "completed" "done"
    sampleSprintsDocUpdated rfl

-- ### C2 — status validation of update_sprint_item_status
/-- C2 (amended): the fixed status enumeration of
`update_sprint_item_status` is `{pending, in_progress, completed}`.  For
every status outside it the operation returns the validation-error payload
and leaves the sprints document unchanged; for every status inside it
applied to an item id that an exception-free `get_sprint_item` scan finds,
the operation succeeds and a subsequent `get_sprint_item` reports the item
with its `status` field set to that value. -/
theorem C2_status_enumeration (data : Json) (item_id status notes : String) :
    (status ∉ valid_statuses →
      update_sprint_item_status data item_id status notes = .invalidStatus status ∧
      sprintsSaved data (update_sprint_item_status data item_id status notes) = data) ∧
    (status ∈ valid_statuses →
      ∀ it, get_sprint_item data item_id = .ok (some it) →
        ∃ d' f', update_sprint_item_status data item_id status notes = .ok d' ∧
          get_sprint_item d' item_id = .ok (some (Json.obj f')) ∧
          lookupKey f' "status" = some (Json.str status)) := by
  constructor
  · intro hv
    have hres : update_sprint_item_status data item_id status notes
        = .invalidStatus status := by
      simp [update_sprint_item_status, hv]
    exact ⟨hres, by rw [hres]; rfl⟩
  · intro hv it hget
    cases data with
    | obj kvs =>
      cases hiter : toIter ((lookupKey kvs "sprints").getD (.arr [])) with
      | none =>
        simp [get_sprint_item, hiter] at hget
      | some sprints =>
        simp only [get_sprint_item] at hget
        rw [hiter] at hget
        obtain ⟨spre, sf, its, ssuf, hsplit, hpre, hiter2, hfind⟩ :=
          findItemSprints_ok_some item_id sprints it hget
        obtain ⟨pre, f, suf, hits, hpre2, hmf, rfl⟩ := findItem_ok_some item_id its it hfind
        have harr : lookupKey sf "items" = some (Json.arr its) :=
          lookup_key_arr_of_mem sf "items" its f hiter2 (by rw [hits]; simp)
        have hupI : updateItems item_id status notes its
            = .ok (some (pre ++ Json.obj (setItemFields f status notes) :: suf)) := by
          rw [hits]
          exact updateItems_complete item_id status notes pre f suf hpre2 hmf
        have hupS := updateSprints_complete item_id status notes spre sf its
          (pre ++ Json.obj (setItemFields f status notes) :: suf) ssuf hpre harr hupI
        have hrun : update_sprint_item_status (Json.obj kvs) item_id status notes
            = .ok (Json.obj (setKey kvs "sprints" (Json.arr (spre ++
                Json.obj (setKey sf "items" (Json.arr (pre ++
                  Json.obj (setItemFields f status notes) :: suf))) :: ssuf)))) := by
          simp only [update_sprint_item_status, hv, if_true, hiter, hsplit, hupS]
        refine ⟨_, setItemFields f status notes, hrun, ?_,
          setItemFields_lookup_status f status notes⟩
        simp only [get_sprint_item]
        rw [lookupKey_setKey_self]
        show findItemSprints item_id (spre ++ Json.obj (setKey sf "items" (Json.arr (pre ++
            Json.obj (setItemFields f status notes) :: suf))) :: ssuf)
          = .ok (some (Json.obj (setItemFields f status notes)))
        refine findItemSprints_complete item_id spre _
          (pre ++ Json.obj (setItemFields f status notes) :: suf) ssuf _ hpre ?_ ?_
        · rw [lookupKey_setKey_self]
          rfl
        · apply findItem_complete item_id pre (setItemFields f status notes) suf hpre2
          rw [keyMatches_setItemFields]
          exact hmf
    | null => simp [get_sprint_item] at hget
    | bool b => simp [get_sprint_item] at hget
    | num n => simp [get_sprint_item] at hget
    | str s => simp [get_sprint_item] at hget
    | arr xs => simp [get_sprint_item] at hget

/-- C2 counterexample: the item `s1_item_1` exists in `sampleSprintsDoc`,
yet `update_sprint_item_status` with status `design_completed` returns the
validation-error payload (the source's `valid_statuses` is only
`['pending', 'in_progress', 'completed']`) and leaves the document
unchanged — contradicting the claim that `design_completed` is inside the
accepted enumeration and succeeds. -/
theorem C2_counterexample :
    get_sprint_item sampleSprintsDoc "s1_item_1"
      = .ok (some (Json.obj [("item_id", Json.str "s1_item_1"),
          ("status", Json.str "pending"), ("task", Json.str "t")])) ∧
    update_sprint_item_status sampleSprintsDoc "s1_item_1" "design_completed" ""
      = .invalidStatus "design_completed" ∧
    sprintsSaved sampleSprintsDoc
        (update_sprint_item_status sampleSprintsDoc "s1_item_1" "design_completed" "")
      = sampleSprintsDoc :=
  ⟨rfl, rfl, rfl⟩

/-- C2 witness: the amended theorem applied at concrete inputs — status
`archived` (outside the enumeration) is rejected on `sampleSprintsDoc`
without change, and status `completed` on the existing `s1_item_1`
succeeds with the status visible to a subsequent `get_sprint_item`. -/
theorem C2_witness :
    (update_sprint_item_status sampleSprintsDoc "s1_item_1" "archived" ""
        = .invalidStatus "archived" ∧
      sprintsSaved sampleSprintsDoc
          (update_sprint_item_status sampleSprintsDoc "s1_item_1" "archived" "")
        = sampleSprintsDoc) ∧
    (∃ d' f', update_sprint_item_status sampleSprintsDoc "s1_item_1" "completed" "done"
        = .ok d' ∧
      get_sprint_item d' "s1_item_1" = .ok (some (Json.obj f')) ∧
      lookupKey f' "status" = some (Json.str "completed")) :=
  ⟨(C2_status_enumeration sampleSprintsDoc "s1_item_1" "archived" "").1 (by decide),
   (C2_status_enumeration sampleSprintsDoc "s1_item_1" "completed" "done").2 (by decide)
     (Json.obj [("item_id", Json.str "s1_item_1"),
       ("status", Json.str "pending"), ("task", Json.str "t")]) rfl⟩

-- ### Customer segments: lemmas about the segment scan
/-- Completeness of the segment scan: the first matching record is rewritten
by `segApply`, everything before it is a non-matching record asis. -/
theorem updateSegList_complete (sid : String) (patch : Json) :
    ∀ (pre : List Json) (f : List (String × Json)) (suf : List Json),
      (∀ x ∈ pre, ∃ g, x = Json.obj g ∧ keyMatches g "id" sid = false) →
      keyMatches f "id" sid = true →
      updateSegList sid patch (pre ++ Json.obj f :: suf)
        = .ok (some (pre ++ segApply f patch :: suf)) := by
  intro pre
  induction pre with
  | nil =>
    intro f suf _ hm
    simp [updateSegList, hm]
  | cons x pre' ih =>
    intro f suf hpre hm
    obtain ⟨g, rfl, hg⟩ := hpre x (List.mem_cons_self x pre')
    have hrest := ih f suf (fun y hy => hpre y (List.mem_cons_of_mem _ hy)) hm
    simp [updateSegList, hg, hrest]

/-- When no record matches (each scanned record is a dict whose `id` is not
the target), the segment scan reports nothing found. -/
theorem updateSegList_none (sid : String) (patch : Json) :
    ∀ segs : List Json,
      (∀ x ∈ segs, ∃ g, x = Json.obj g ∧ keyMatches g "id" sid = false) →
      updateSegList sid patch segs = .ok none := by
  intro segs
  induction segs with
  | nil => intro _; rfl
  | cons x rest ih =>
    intro hmiss
    obtain ⟨g, rfl, hg⟩ := hmiss x (List.mem_cons_self x rest)
    have hrest := ih (fun y hy => hmiss y (List.mem_cons_of_mem _ hy))
    simp [updateSegList, hg, hrest]

-- ### C3 — update-by-identity on the segments document
/-- C3 (amended): for every segment id and every well-formed mapping patch,
`update_customer_segments` locates the first list element whose `id` field
equals the identifier and merges the patch into that element only — the
patch wins on conflict, that element's other fields are preserved, and all
other elements are untouched; it persists the merged document and returns a
success payload that echoes the segment id and the raw patch (not the full
updated record, which is only saved in the document).  For every segment id
matching no element the operation returns the not-found error kind and the
document is unchanged. -/
theorem C3_segment_update_by_identity (kvs : List (String × Json)) (segs : List Json)
    (sid : String) (p : List (String × Json)) (hwf : (p.map Prod.fst).Nodup)
    (hlk : lookupKey kvs "customer_segments" = some (Json.arr segs)) :
    (∀ pre f suf, segs = pre ++ Json.obj f :: suf →
      (∀ x ∈ pre, ∃ g, x = Json.obj g ∧ keyMatches g "id" sid = false) →
      keyMatches f "id" sid = true →
      update_customer_segments (Json.obj kvs) sid (Json.obj p)
        = .ok (segmentsPayload sid (Json.obj p))
            (Json.obj (setKey kvs "customer_segments"
              (Json.arr (pre ++ Json.obj (dictUpdate f p) :: suf)))) ∧
      (∀ q, lookupKey (dictUpdate f p) q = firstSome (lookupKey p q) (lookupKey f q)) ∧
      docLookup (segmentsPayload sid (Json.obj p)) "updates" = some (Json.obj p)) ∧
    ((∀ x ∈ segs, ∃ g, x = Json.obj g ∧ keyMatches g "id" sid = false) →
      update_customer_segments (Json.obj kvs) sid (Json.obj p) = .notFound sid ∧
      segmentsSaved (Json.obj kvs)
          (update_customer_segments (Json.obj kvs) sid (Json.obj p)) = Json.obj kvs) := by
  have hiter : toIter ((lookupKey kvs "customer_segments").getD (.arr [])) = some segs := by
    rw [hlk]
    rfl
  constructor
  · intro pre f suf hsegs hpre hm
    have hscan := updateSegList_complete sid (Json.obj p) pre f suf hpre hm
    rw [hsegs] at hiter
    refine ⟨?_, fun q => lookupKey_dictUpdate_nodup f p hwf q, rfl⟩
    simp only [update_customer_segments, hsegs, hiter, hscan]
    rfl
  · intro hmiss
    have hscan := updateSegList_none sid (Json.obj p) segs hmiss
    have hres : update_customer_segments (Json.obj kvs) sid (Json.obj p) = .notFound sid := by
      simp only [update_customer_segments, hiter, hscan]
    exact ⟨hres, by rw [hres]; rfl⟩

/-- C3 counterexample: updating existing `seg_03` with the example patch
does merge correctly into the saved document, but the operation does not
return the full updated record: the success payload echoes only the raw
patch (its `updates` field is the one-key patch object), and neither the
payload nor its `updates` field equals the full updated three-field
record. -/
theorem C3_counterexample :
    update_customer_segments (Json.obj sampleSegmentsKvs) "seg_03" (Json.obj samplePainPatch)
      = .ok (segmentsPayload "seg_03" (Json.obj samplePainPatch))
          (Json.obj [("customer_segments", Json.arr [sampleUpdatedRecord])]) ∧
    docLookup (segmentsPayload "seg_03" (Json.obj samplePainPatch)) "updates"
      = some (Json.obj samplePainPatch) ∧
    Json.obj samplePainPatch ≠ sampleUpdatedRecord ∧
    segmentsPayload "seg_03" (Json.obj samplePainPatch) ≠ sampleUpdatedRecord := by
  refine ⟨rfl, rfl, ?_, ?_⟩
  · intro h
    simpa [topFieldCount, samplePainPatch, sampleUpdatedRecord] using
      congrArg topFieldCount h
  · intro h
    simpa [topFieldCount, segmentsPayload, sampleUpdatedRecord] using
      congrArg topFieldCount h

/-- C3 witness: the amended theorem at the spec's example inputs — patching
`seg_03` merges into the one matching record, and `seg_99` matches nothing
and leaves the document unchanged. -/
theorem C3_witness :
    (update_customer_segments (Json.obj sampleSegmentsKvs) "seg_03" (Json.obj samplePainPatch)
        = .ok (segmentsPayload "seg_03" (Json.obj samplePainPatch))
            (Json.obj (setKey sampleSegmentsKvs "customer_segments"
              (Json.arr ([] ++ Json.obj (dictUpdate
                  [("id", Json.str "seg_03"),
                   ("name", Json.str "Starters"),
                   ("pain_points", Json.arr [Json.str "old"])] samplePainPatch) :: [])))) ∧
      (∀ q, lookupKey (dictUpdate
          [("id", Json.str "seg_03"),
           ("name", Json.str "Starters"),
           ("pain_points", Json.arr [Json.str "old"])] samplePainPatch) q
        = firstSome (lookupKey samplePainPatch q)
            (lookupKey [("id", Json.str "seg_03"),
              ("name", Json.str "Starters"),
              ("pain_points", Json.arr [Json.str "old"])] q)) ∧
      docLookup (segmentsPayload "seg_03" (Json.obj samplePainPatch)) "updates"
        = some (Json.obj samplePainPatch)) ∧
    (update_customer_segments (Json.obj sampleSegmentsKvs) "seg_99" (Json.obj samplePainPatch)
        = .notFound "seg_99" ∧
      segmentsSaved (Json.obj sampleSegmentsKvs)
          (update_customer_segments (Json.obj sampleSegmentsKvs) "seg_99"
            (Json.obj samplePainPatch))
        = Json.obj sampleSegmentsKvs) :=
  ⟨(C3_segment_update_by_identity sampleSegmentsKvs
      [Json.obj [("id", Json.str "seg_03"), ("name", Json.str "Starters"),
        ("pain_points", Json.arr [Json.str "old"])]]
      "seg_03" samplePainPatch (by decide) rfl).1
      [] _ [] rfl (by simp) (by decide),
   (C3_segment_update_by_identity sampleSegmentsKvs
      [Json.obj [("id", Json.str "seg_03"), ("name", Json.str "Starters"),
        ("pain_points", Json.arr [Json.str "old"])]]
      "seg_99" samplePainPatch (by decide) rfl).2
      (by
        intro x hx
        simp only [List.mem_singleton] at hx
        subst hx
        exact ⟨[("id", Json.str "seg_03"), ("name", Json.str "Starters"),
          ("pain_points", Json.arr [Json.str "old"])], rfl, by decide⟩)⟩

-- ### C10 — non-mapping patches replace the whole segment record
/-- C10: for every segment id matching an existing record and every
well-formed JSON patch that is not a keyed mapping (a list, string, number,
boolean or null), `update_customer_segments` replaces the entire matched
record with the patch verbatim — discarding all of the record's prior
fields, including its `id` — rather than merging, and still reports
success. -/
theorem C10_nonmapping_patch_replaces_record (kvs : List (String × Json))
    (segs : List Json) (sid : String) (patch : Json) (pre suf : List Json)
    (f : List (String × Json))
    (hlk : lookupKey kvs "customer_segments" = some (Json.arr segs))
    (hsegs : segs = pre ++ Json.obj f :: suf)
    (hpre : ∀ x ∈ pre, ∃ g, x = Json.obj g ∧ keyMatches g "id" sid = false)
    (hm : keyMatches f "id" sid = true)
    (hnp : ∀ q, patch ≠ Json.obj q) :
    update_customer_segments (Json.obj kvs) sid patch
      = .ok (segmentsPayload sid patch)
          (Json.obj (setKey kvs "customer_segments" (Json.arr (pre ++ patch :: suf)))) := by
  have hiter : toIter ((lookupKey kvs "customer_segments").getD (.arr [])) = some segs := by
    rw [hlk]
    rfl
  rw [hsegs] at hiter
  have happ : segApply f patch = patch := by
    cases patch with
    | obj q => exact absurd rfl (hnp q)
    | null => rfl
    | bool b => rfl
    | num n => rfl
    | str s => rfl
    | arr xs => rfl
  have hscan := updateSegList_complete sid patch pre f suf hpre hm
  rw [happ] at hscan
  simp only [update_customer_segments, hsegs, hiter, hscan]

/-- C10 witness: replacing `seg_03` with the list patch
`["slow onboarding"]` discards the whole record (including its id) and
still reports success. -/
theorem C10_witness :
    update_customer_segments (Json.obj sampleSegmentsKvs) "seg_03"
        (Json.arr [Json.str "slow onboarding"])
      = .ok (segmentsPayload "seg_03" (Json.arr [Json.str "slow onboarding"]))
          (Json.obj (setKey sampleSegmentsKvs "customer_segments"
            (Json.arr ([] ++ Json.arr [Json.str "slow onboarding"] :: [])))) :=
  C10_nonmapping_patch_replaces_record sampleSegmentsKvs
    [Json.obj [("id", Json.str "seg_03"), ("name", Json.str "Starters"),
      ("pain_points", Json.arr [Json.str "old"])]]
    "seg_03" (Json.arr [Json.str "slow onboarding"]) [] []
    [("id", Json.str "seg_03"), ("name", Json.str "Starters"),
      ("pain_points", Json.arr [Json.str "old"])]
    rfl rfl (by simp) (by decide) (fun q h => Json.noConfusion h)
